import Mathlib

/-!
Verification development for the arboretum GPU gradient-boosted-tree trainer
(src/core/garden.cu).  The device and host routines relevant to the split
finder are shallowly embedded below: floating-point scalars are modelled by
exact rationals (ℚ) unless a claim is specifically about rounding, in which
case an explicit IEEE binary32 round-to-nearest-even model over ℚ is used;
unsigned machine integers are ℕ with explicit wrap-around subtraction where
C subtraction of unsigned values occurs; feature values that can be the
infinite sentinels are modelled by the three-valued type FVal (NaN never
arises in the modelled computations and is excluded from the model).
-/

/-- Wrap-around subtraction of w-bit unsigned integers, as C computes
`a - b` on `unsigned int` (w = 32) or `size_t` (w = 64). -/
def usub (w a b : ℕ) : ℕ := (a + 2 ^ w - b) % 2 ^ w

theorem usub_eq_sub {w a b : ℕ} (hba : b ≤ a) (ha : a < 2 ^ w) :
    usub w a b = a - b := by
  unfold usub
  have h1 : a + 2 ^ w - b = (a - b) + 2 ^ w := by omega
  rw [h1, Nat.add_mod_right, Nat.mod_eq_of_lt (by omega)]

/-- Feature values as stored in the `fvalue` buffers: an ordinary float
(modelled exactly as a rational) or one of the two infinities.  The device
code never produces NaN feature values, so NaN is not modelled. -/
inductive FVal where
  | ninf : FVal
  | fin (q : ℚ) : FVal
  | pinf : FVal
deriving DecidableEq

/-- IEEE `<=` on non-NaN values. -/
def FVal.leb : FVal → FVal → Bool
  | .ninf, _ => true
  | _, .pinf => true
  | .fin a, .fin b => decide (a ≤ b)
  | _, _ => false

/-- Whether a value is finite (neither infinity). -/
def FVal.isFiniteV : FVal → Bool
  | .fin _ => true
  | _ => false

/-- The two-component gradient/hessian accumulator (`float2` / `double2`
in the source), with exact rational components. -/
structure Pair2 where
  x : ℚ
  y : ℚ
deriving DecidableEq

/-- Componentwise subtraction.  Modelled from the spec: the `operator-`
overload for `float2`/`double2` lives in cuda_helpers.h (not part of the
sources); the spec treats gradient 2-tuples componentwise. -/
def Pair2.sub (a b : Pair2) : Pair2 := ⟨a.x - b.x, a.y - b.y⟩

/-- The gain-function parameter bundle (`GainFunctionParameters`,
garden.cu lines 39-50). -/
structure GainParams where
  min_leaf_size : ℕ
  hess : ℚ
  gamma : ℚ
  lambda : ℚ
  alpha : ℚ

/-- The gradient-only `gain_func` overloads (garden.cu lines 143-174,
`float` and `double` versions coincide over exact rationals).
`right_count = total_count - left_count` is computed on `size_t`. -/
def gain_func_scalar (left_sum total_sum : ℚ) (left_count total_count : ℕ)
    (p : GainParams) : ℚ :=
  let right_count := usub 64 total_count left_count
  if p.min_leaf_size ≤ left_count ∧ p.min_leaf_size ≤ right_count then
    let right_sum := total_sum - left_sum
    let l := left_sum * left_sum / ((left_count : ℚ) + p.lambda)
    let r := right_sum * right_sum / ((right_count : ℚ) + p.lambda)
    let pa := total_sum * total_sum / ((total_count : ℚ) + p.lambda)
    l + r - pa
  else 0

/-- The gradient+hessian `gain_func` overloads (garden.cu lines 107-141,
`double2` and `float2` versions coincide over exact rationals). -/
def gain_func_pair (left_sum total_sum : Pair2) (left_count total_count : ℕ)
    (p : GainParams) : ℚ :=
  let right_sum := total_sum.sub left_sum
  if p.min_leaf_size ≤ left_count ∧
      p.min_leaf_size ≤ usub 64 total_count left_count ∧
      p.hess ≤ |left_sum.y| ∧ p.hess ≤ |right_sum.y| then
    let l := left_sum.x * left_sum.x / (left_sum.y + p.lambda)
    let r := right_sum.x * right_sum.x / (right_sum.y + p.lambda)
    let pa := total_sum.x * total_sum.x / (total_sum.y + p.lambda)
    l + r - pa
  else 0

/-- Spec-side regularised quadratic for the gradient-only variants:
`q(G) = G*G / (n + lambda)` with `n` the row count of the side. -/
def q_grad (G : ℚ) (n : ℕ) (lam : ℚ) : ℚ := G * G / ((n : ℚ) + lam)

/-- Spec-side regularised quadratic for the gradient+hessian variants:
`q(g, h) = g*g / (h + lambda)`. -/
def q_hess (g h lam : ℚ) : ℚ := g * g / (h + lam)

/-- Claim C3: both gain-function families return
`q(G_L) + q(G_t - G_L) - q(G_t)` exactly when the feasibility predicate
`L >= min_leaf and (N_t - L) >= min_leaf and |h_L| >= min_hess and
|h_R| >= min_hess` holds (the hessian conditions being vacuous in the
gradient-only variants), and return 0 otherwise. -/
theorem C3_gain_func_spec (p : GainParams) (L Nt : ℕ) (gL gT : ℚ)
    (PL PT : Pair2) (hL : L ≤ Nt) (hNt : Nt < 2 ^ 64) :
    (gain_func_scalar gL gT L Nt p =
      if p.min_leaf_size ≤ L ∧ p.min_leaf_size ≤ Nt - L then
        q_grad gL L p.lambda + q_grad (gT - gL) (Nt - L) p.lambda -
          q_grad gT Nt p.lambda
      else 0) ∧
    (gain_func_pair PL PT L Nt p =
      if p.min_leaf_size ≤ L ∧ p.min_leaf_size ≤ Nt - L ∧
          p.hess ≤ |PL.y| ∧ p.hess ≤ |(PT.sub PL).y| then
        q_hess PL.x PL.y p.lambda + q_hess (PT.sub PL).x (PT.sub PL).y p.lambda -
          q_hess PT.x PT.y p.lambda
      else 0) := by
  have hu : usub 64 Nt L = Nt - L := usub_eq_sub hL hNt
  constructor
  · simp only [gain_func_scalar, q_grad, hu]
  · simp only [gain_func_pair, q_hess, hu, and_assoc]

/-- Claim C3 witness: concrete instantiation of the gain-function contract. -/
theorem C3_gain_func_spec_witness :
    (gain_func_scalar (-1) 0 1 2 ⟨1, 0, 0, 1, 0⟩ =
      if (1 : ℕ) ≤ 1 ∧ (1 : ℕ) ≤ 2 - 1 then
        q_grad (-1) 1 1 + q_grad (0 - -1) (2 - 1) 1 - q_grad 0 2 1
      else 0) ∧
    (gain_func_pair ⟨-1, 1⟩ ⟨0, 2⟩ 1 2 ⟨1, 0, 0, 1, 0⟩ =
      if (1 : ℕ) ≤ 1 ∧ (1 : ℕ) ≤ 2 - 1 ∧
          (0 : ℚ) ≤ |(Pair2.mk (-1) 1).y| ∧
          (0 : ℚ) ≤ |((Pair2.mk 0 2).sub (Pair2.mk (-1) 1)).y| then
        q_hess (Pair2.mk (-1) 1).x (Pair2.mk (-1) 1).y 1 +
          q_hess ((Pair2.mk 0 2).sub (Pair2.mk (-1) 1)).x
            ((Pair2.mk 0 2).sub (Pair2.mk (-1) 1)).y 1 -
          q_hess (Pair2.mk 0 2).x (Pair2.mk 0 2).y 1
      else 0) :=
  C3_gain_func_spec ⟨1, 0, 0, 1, 0⟩ 1 2 (-1) 0 ⟨-1, 1⟩ ⟨0, 2⟩
    (by norm_num) (by norm_num)

theorem pair_sub_sub (a b : Pair2) : a.sub (a.sub b) = b := by
  cases a; cases b
  simp only [Pair2.sub, Pair2.mk.injEq]
  constructor <;> ring

/-- Claim C7 (amended part): over exact arithmetic both gain-function
families are symmetric under exchanging the left and right sides. -/
theorem C7_gain_symmetry (p : GainParams) (L Nt : ℕ) (gL gT : ℚ)
    (PL PT : Pair2) (hL : L ≤ Nt) (hNt : Nt < 2 ^ 64) :
    gain_func_scalar gL gT L Nt p = gain_func_scalar (gT - gL) gT (Nt - L) Nt p ∧
    gain_func_pair PL PT L Nt p = gain_func_pair (PT.sub PL) PT (Nt - L) Nt p := by
  have hu1 : usub 64 Nt L = Nt - L := usub_eq_sub hL hNt
  have hu2 : usub 64 Nt (Nt - L) = L := by
    rw [usub_eq_sub (Nat.sub_le _ _) hNt]; omega
  have hswap : Nt - (Nt - L) = L := by omega
  constructor
  · simp only [gain_func_scalar, hu1, hu2]
    by_cases hc : p.min_leaf_size ≤ L ∧ p.min_leaf_size ≤ Nt - L
    · rw [if_pos hc, if_pos ⟨hc.2, hc.1⟩]
      ring
    · rw [if_neg hc, if_neg (by tauto)]
  · have hrs : PT.sub (PT.sub PL) = PL := pair_sub_sub PT PL
    simp only [gain_func_pair, hu1, hu2, hrs]
    by_cases hc : p.min_leaf_size ≤ L ∧ p.min_leaf_size ≤ Nt - L ∧
        p.hess ≤ |PL.y| ∧ p.hess ≤ |(PT.sub PL).y|
    · rw [if_pos hc, if_pos ⟨hc.2.1, hc.1, hc.2.2.2, hc.2.2.1⟩]
      ring
    · rw [if_neg hc, if_neg (by tauto)]

/-- Claim C7 witness: concrete instantiation of the exact-arithmetic
symmetry of the gain evaluator. -/
theorem C7_gain_symmetry_witness :
    gain_func_scalar (-1) 0 1 2 ⟨1, 0, 0, 1, 0⟩ =
      gain_func_scalar (0 - -1) 0 (2 - 1) 2 ⟨1, 0, 0, 1, 0⟩ ∧
    gain_func_pair ⟨-1, 1⟩ ⟨0, 2⟩ 1 2 ⟨1, 0, 0, 1, 0⟩ =
      gain_func_pair ((Pair2.mk 0 2).sub ⟨-1, 1⟩) ⟨0, 2⟩ (2 - 1) 2
        ⟨1, 0, 0, 1, 0⟩ :=
  C7_gain_symmetry ⟨1, 0, 0, 1, 0⟩ 1 2 (-1) 0 ⟨-1, 1⟩ ⟨0, 2⟩
    (by norm_num) (by norm_num)

/-- One cell of the per-leaf result array: `my_atomics` (garden.cu lines
33-37) packs a float gain (`floats[0]`) and an index (`ints[1]`) into a
64-bit word; the packing is modelled by the pair itself. -/
structure AtomicCell where
  gain : ℚ
  idx : ℕ
deriving DecidableEq

/-- Sequential semantics of `updateAtomicMax` (garden.cu lines 52-62):
the CAS loop replaces the cell content exactly when the stored gain is
strictly below the candidate gain. -/
def updateAtomicMax (c : AtomicCell) (val1 : ℚ) (val2 : ℕ) : AtomicCell :=
  if c.gain < val1 then ⟨val1, val2⟩ else c

/-- A sequence of `updateAtomicMax` calls applied to a cell. -/
def runUpdates (us : List (ℚ × ℕ)) (c : AtomicCell) : AtomicCell :=
  us.foldl (fun acc u => updateAtomicMax acc u.1 u.2) c

theorem runUpdates_gain_mono (us : List (ℚ × ℕ)) (c : AtomicCell) :
    c.gain ≤ (runUpdates us c).gain := by
  induction us generalizing c with
  | nil => simp [runUpdates]
  | cons u us ih =>
    simp only [runUpdates, List.foldl_cons]
    refine le_trans ?_ (ih (updateAtomicMax c u.1 u.2))
    unfold updateAtomicMax
    split <;> simp_all [le_of_lt]

theorem runUpdates_le (us : List (ℚ × ℕ)) (c : AtomicCell) :
    ∀ u ∈ us, u.1 ≤ (runUpdates us c).gain := by
  induction us generalizing c with
  | nil => simp
  | cons v us ih =>
    intro u hu
    rcases List.mem_cons.1 hu with h | h
    · subst h
      refine le_trans ?_ (runUpdates_gain_mono us (updateAtomicMax c u.1 u.2))
      unfold updateAtomicMax
      split <;> simp_all [le_of_not_lt]
    · exact ih (updateAtomicMax c v.1 v.2) u h

theorem runUpdates_mem (us : List (ℚ × ℕ)) (c : AtomicCell) :
    runUpdates us c = c ∨
      ((runUpdates us c).gain, (runUpdates us c).idx) ∈ us := by
  induction us generalizing c with
  | nil => left; rfl
  | cons u us ih =>
    simp only [runUpdates, List.foldl_cons]
    by_cases h : c.gain < u.1
    · right
      have hupd : updateAtomicMax c u.1 u.2 = ⟨u.1, u.2⟩ := if_pos h
      rw [hupd]
      rcases ih ⟨u.1, u.2⟩ with heq | hmem
      · rw [show runUpdates us ⟨u.1, u.2⟩ =
            List.foldl (fun acc v => updateAtomicMax acc v.1 v.2) ⟨u.1, u.2⟩ us
            from rfl] at heq
        rw [heq]
        exact List.mem_cons_self _ _
      · exact List.mem_cons_of_mem _ hmem
    · have hupd : updateAtomicMax c u.1 u.2 = c := if_neg h
      rw [hupd]
      rcases ih c with heq | hmem
      · left; exact heq
      · right; exact List.mem_cons_of_mem _ hmem

/-- Claim C5 (amended): `updateAtomicMax` replaces the cell content exactly
when the candidate gain strictly exceeds the stored gain, and after any
sequence of updates with positive gains on a zero-initialised cell the cell
holds the maximum gain together with an index submitted with that gain. -/
theorem C5_atomic_max (us : List (ℚ × ℕ)) (hpos : ∀ u ∈ us, 0 < u.1)
    (hne : us ≠ []) :
    (∀ (c : AtomicCell) (g : ℚ) (i : ℕ),
      (c.gain < g → updateAtomicMax c g i = ⟨g, i⟩) ∧
      (¬ c.gain < g → updateAtomicMax c g i = c)) ∧
    (∀ u ∈ us, u.1 ≤ (runUpdates us ⟨0, 0⟩).gain) ∧
    ((runUpdates us ⟨0, 0⟩).gain, (runUpdates us ⟨0, 0⟩).idx) ∈ us := by
  refine ⟨fun c g i => ⟨fun h => if_pos h, fun h => if_neg h⟩,
    runUpdates_le us ⟨0, 0⟩, ?_⟩
  rcases runUpdates_mem us ⟨0, 0⟩ with heq | hmem
  · rcases us with _ | ⟨u, us⟩
    · exact absurd rfl hne
    · exfalso
      have h1 : u.1 ≤ (runUpdates (u :: us) ⟨0, 0⟩).gain :=
        runUpdates_le _ _ u (List.mem_cons_self _ _)
      rw [heq] at h1
      exact absurd (lt_of_lt_of_le (hpos u (List.mem_cons_self _ _)) h1)
        (lt_irrefl 0)
  · exact hmem

/-- Claim C5 witness: a single positive update on a zero cell. -/
theorem C5_atomic_max_witness :
    (∀ (c : AtomicCell) (g : ℚ) (i : ℕ),
      (c.gain < g → updateAtomicMax c g i = ⟨g, i⟩) ∧
      (¬ c.gain < g → updateAtomicMax c g i = c)) ∧
    (∀ u ∈ [((1 : ℚ), 7)], u.1 ≤ (runUpdates [((1 : ℚ), 7)] ⟨0, 0⟩).gain) ∧
    ((runUpdates [((1 : ℚ), 7)] ⟨0, 0⟩).gain,
      (runUpdates [((1 : ℚ), 7)] ⟨0, 0⟩).idx) ∈ [((1 : ℚ), 7)] :=
  C5_atomic_max [((1 : ℚ), 7)] (by norm_num) (by simp)

/-- Claim C5 counterexample: a single update with a non-positive gain on a
zero-initialised cell leaves the cell at `(0, 0)`, so the cell does not
contain the maximum gain of the submitted updates together with its index. -/
theorem C5_nonpositive_counterexample :
    runUpdates [((-1 : ℚ), 5)] ⟨0, 0⟩ = ⟨0, 0⟩ ∧
    ((runUpdates [((-1 : ℚ), 5)] ⟨0, 0⟩).gain,
      (runUpdates [((-1 : ℚ), 5)] ⟨0, 0⟩).idx) ≠ ((-1 : ℚ), 5) := by
  have h : runUpdates [((-1 : ℚ), 5)] ⟨0, 0⟩ = ⟨0, 0⟩ := by
    simp only [runUpdates, List.foldl_cons, List.foldl_nil, updateAtomicMax]
    norm_num
  refine ⟨h, ?_⟩
  rw [h]
  simp only [ne_eq, Prod.mk.injEq, not_and]
  intro h0
  exact absurd h0 (by norm_num)

/-- The `gather` kernel (garden.cu lines 75-87) as the dense path invokes
it on the gradient vector (line 675): every thread `i < n` reads
`index = position[i]` and stores `in[index]` at `out[index]` (note: at
`out[index]`, not at `out[i]`). -/
def gatherKernel (position : List ℕ) (inp fallout : List ℚ) : List ℚ :=
  (List.range position.length).foldl
    (fun acc i => acc.set (position.getD i 0) (inp.getD (position.getD i 0) 0))
    fallout

/-- The `gather_kernel_simple` kernel (garden.cu lines 64-73), which is
also the permutation semantics the claim states for `grad_sorted`:
`out[i] = in[position[i]]` for every `i < n`. -/
def gatherSimpleKernel (position : List ℕ) (inp : List ℚ) : List ℚ :=
  position.map (fun p => inp.getD p 0)

/-- Claim C1 (code bug): on `positions_sorted = [1, 0]` and
`grad = [10, 20]`, the `gather` kernel used for the gradient permutation
returns the gradient vector unchanged (`[10, 20]`), while the claimed
postcondition `grad_sorted[i] = grad[positions_sorted[i]]` requires
`[20, 10]`; in particular `grad_sorted[0]` is `grad[0]`, not
`grad[positions_sorted[0]]`. -/
theorem C1_gather_bug :
    gatherKernel [1, 0] [10, 20] [0, 0] = [10, 20] ∧
    gatherSimpleKernel [1, 0] [10, 20] = [20, 10] ∧
    gatherKernel [1, 0] [10, 20] [0, 0] ≠ gatherSimpleKernel [1, 0] [10, 20] ∧
    (gatherKernel [1, 0] [10, 20] [0, 0]).getD 0 0 ≠
      ([10, 20] : List ℚ).getD (([1, 0] : List ℕ).getD 0 0) 0 := by
  refine ⟨?_, ?_, ?_, ?_⟩ <;>
    simp [gatherKernel, gatherSimpleKernel, List.range_succ]

/-- The candidate test of `gain_kernel` (garden.cu lines 187-189): position
`i` is evaluated exactly when `fvalues[i + 1] != fvalues[i]`. -/
def gainKernelEvaluates (fvalues : ℕ → FVal) (i : ℕ) : Bool :=
  decide (fvalues (i + 1) ≠ fvalues i)

/-- The gain computed by `gain_kernel` at sort position `i` (garden.cu
lines 190-203), for the scalar gradient instantiation: per-segment sums
are recovered by subtracting the parent prefix entries, with the count
arithmetic on `unsigned int`. -/
def gainKernelGainAt (sum : ℕ → ℚ) (segments : ℕ → ℕ) (parentSum : ℕ → ℚ)
    (parentCount : ℕ → ℕ) (p : GainParams) (i : ℕ) : ℚ :=
  let seg := segments i
  gain_func_scalar (sum i - parentSum seg) (parentSum (seg + 1) - parentSum seg)
    (usub 32 i (parentCount seg))
    (usub 32 (parentCount (seg + 1)) (parentCount seg)) p

/-- Whether `gain_kernel` records a candidate at position `i` (garden.cu
lines 189 and 204): the value test must pass and the gain must be
strictly positive. -/
def gainKernelRecords (sum : ℕ → ℚ) (fvalues : ℕ → FVal) (segments : ℕ → ℕ)
    (parentSum : ℕ → ℚ) (parentCount : ℕ → ℕ) (p : GainParams) (i : ℕ) : Bool :=
  gainKernelEvaluates fvalues i &&
    decide (0 < gainKernelGainAt sum segments parentSum parentCount p i)

/-- A concrete `fvalue` buffer with the sentinel at position 0, as the
builder constructor installs it (garden.cu line 261), followed by the
sorted feature values 1, 2, 3, ... -/
def cexFvalues : ℕ → FVal := fun i => if i = 0 then .ninf else .fin i

/-- Claim C2 counterexample: with the sentinel `-inf` at `fvalue[0]` and a
finite first sorted value, the test `fvalue[1] != fvalue[0]` holds, so the
gain kernel does evaluate a gain at position 0 - the sentinel makes the
skip test accept position 0 rather than skip it. -/
theorem C2_sentinel_counterexample : gainKernelEvaluates cexFvalues 0 = true := by
  simp [gainKernelEvaluates, cexFvalues]

/-- Claim C2 (amended): position 0 is evaluated (the sentinel makes the
equal-value test pass), but nothing is ever recorded there: when
`min_leaf_size >= 1` and the parent count prefix at the first occupied
segment is 0, the left count at position 0 is 0, the gain function
returns 0, and the strict positivity test fails. -/
theorem C2_sentinel_amended (sum : ℕ → ℚ) (fvalues : ℕ → FVal)
    (segments : ℕ → ℕ) (parentSum : ℕ → ℚ) (parentCount : ℕ → ℕ)
    (p : GainParams) (hml : 1 ≤ p.min_leaf_size)
    (hpc : parentCount (segments 0) = 0) :
    gainKernelRecords sum fvalues segments parentSum parentCount p 0 = false := by
  have hzero : gainKernelGainAt sum segments parentSum parentCount p 0 = 0 := by
    have h0 : usub 32 0 0 = 0 := by simp [usub]
    simp only [gainKernelGainAt, gain_func_scalar, hpc, h0]
    rw [if_neg]
    intro hcon
    omega
  unfold gainKernelRecords
  rw [hzero]
  simp

/-- Claim C2 witness: concrete instantiation of the amended statement. -/
theorem C2_sentinel_amended_witness :
    gainKernelRecords (fun _ => 0) cexFvalues (fun _ => 0) (fun _ => 0)
      (fun _ => 0) ⟨1, 0, 0, 1, 0⟩ 0 = false :=
  C2_sentinel_amended (fun _ => 0) cexFvalues (fun _ => 0) (fun _ => 0)
    (fun _ => 0) ⟨1, 0, 0, 1, 0⟩ (by norm_num) rfl

/-- Host-side per-leaf statistics (`NodeStat`, declared in garden.h; the
fields used by garden.cu are the row count and the gradient aggregate,
here in the scalar instantiation). -/
structure NodeStat where
  count : ℤ
  sum_grad : ℚ
deriving DecidableEq

/-- Host-side per-leaf split record (`Split`, declared in garden.h; the
fields written by garden.cu). -/
structure Split where
  fid : ℤ
  gain : ℚ
  split_value : FVal
  count : ℤ
  sum_grad : ℚ
  split_by_true : Bool
deriving DecidableEq

/-- Modelled from the spec: `Split::Clean` (garden.h, not among the
sources) resets a split record to the unset state the spec describes -
`fid = -1` meaning unset, `gain = 0`, and no sparse split chosen
(`split_by_true = false`). -/
def cleanSplit : Split :=
  { fid := -1, gain := 0, split_value := .fin 0, count := 0, sum_grad := 0,
    split_by_true := false }

/-- One leaf iteration of `GetBestSplitForDenceFeature` past the
empty-leaf guard (garden.cu lines 561-581).  `_isnan` is declared in
cuda_helpers.h, which is not among the sources; modelled from the spec:
the scanned value is accepted exactly when it is finite.  On acceptance
the split threshold is `(fvalue[idx] + fvalue[idx+1]) * 0.5` and the
count is the `unsigned int` difference `idx - parent_node_count_h[leaf]`. -/
def bestSplitStepDence (active_fid : ℕ) (parentCount : ℕ) (parentSum : ℚ)
    (resGain : ℚ) (resIdx : ℕ) (sum : ℕ → FVal) (fvalue : ℕ → ℚ)
    (best : Split) : Split :=
  if best.gain < resGain then
    match sum resIdx with
    | .fin s =>
      { fid := (active_fid : ℤ), gain := resGain,
        split_value := .fin ((fvalue resIdx + fvalue (resIdx + 1)) * (1 / 2)),
        count := (usub 32 resIdx parentCount : ℤ),
        sum_grad := s - parentSum,
        split_by_true := best.split_by_true }
    | _ => best
  else best

/-- The per-leaf loop of `GetBestSplitForDenceFeature` (garden.cu lines
558-583): leaves with non-positive counts are skipped before any device
result is consulted; the iterations touch only their own leaf record, so
the loop acts pointwise. -/
def getBestSplitForDence (lenght : ℕ) (active_fid : ℕ) (stats : ℕ → NodeStat)
    (res : ℕ → ℚ × ℕ) (sum : ℕ → FVal) (fvalue : ℕ → ℚ)
    (parentCount : ℕ → ℕ) (parentSum : ℕ → ℚ) (best : ℕ → Split) :
    ℕ → Split :=
  fun i =>
    if i < lenght then
      if (stats i).count ≤ 0 then best i
      else
        bestSplitStepDence active_fid (parentCount i) (parentSum i)
          (res i).1 (res i).2 sum fvalue (best i)
    else best i

/-- Claim C4: the dense reduction accepts a slot result exactly when the
reported gain strictly exceeds the running best gain and the scanned value
at the argmax index is finite; acceptance records the midpoint threshold
and otherwise the record is unchanged. -/
theorem C4_best_split_accept (active_fid : ℕ) (parentCount : ℕ)
    (parentSum : ℚ) (resGain : ℚ) (resIdx : ℕ) (sum : ℕ → FVal)
    (fvalue : ℕ → ℚ) (best : Split) :
    (∀ s : ℚ, best.gain < resGain → sum resIdx = .fin s →
      bestSplitStepDence active_fid parentCount parentSum resGain resIdx sum
          fvalue best =
        { fid := (active_fid : ℤ), gain := resGain,
          split_value := .fin ((fvalue resIdx + fvalue (resIdx + 1)) * (1 / 2)),
          count := (usub 32 resIdx parentCount : ℤ),
          sum_grad := s - parentSum,
          split_by_true := best.split_by_true }) ∧
    (¬ best.gain < resGain →
      bestSplitStepDence active_fid parentCount parentSum resGain resIdx sum
        fvalue best = best) ∧
    ((sum resIdx).isFiniteV = false →
      bestSplitStepDence active_fid parentCount parentSum resGain resIdx sum
        fvalue best = best) := by
  refine ⟨?_, ?_, ?_⟩
  · intro s hgain hfin
    unfold bestSplitStepDence
    rw [if_pos hgain, hfin]
  · intro hgain
    unfold bestSplitStepDence
    rw [if_neg hgain]
  · intro hfin
    unfold bestSplitStepDence
    split
    · cases hsum : sum resIdx with
      | fin s => rw [hsum] at hfin; simp [FVal.isFiniteV] at hfin
      | ninf => rfl
      | pinf => rfl
    · rfl

/-- Claim C4 witness: concrete acceptance and both rejection branches. -/
theorem C4_best_split_accept_witness :
    ((3 : ℚ) > cleanSplit.gain ∧
      bestSplitStepDence 2 0 0 3 1 (fun _ => .fin 5) (fun i => (i : ℚ))
          cleanSplit =
        { fid := (2 : ℤ), gain := 3,
          split_value := .fin (((1 : ℚ) + 2) * (1 / 2)),
          count := (usub 32 1 0 : ℤ), sum_grad := 5 - 0,
          split_by_true := false }) ∧
    bestSplitStepDence 2 0 0 (-1) 1 (fun _ => .fin 5) (fun i => (i : ℚ))
      cleanSplit = cleanSplit ∧
    bestSplitStepDence 2 0 0 3 1 (fun _ => .pinf) (fun i => (i : ℚ))
      cleanSplit = cleanSplit := by
  have h1 := (C4_best_split_accept 2 0 0 3 1 (fun _ => .fin 5)
    (fun i => (i : ℚ)) cleanSplit).1 5 (by norm_num [cleanSplit]) rfl
  have h2 := (C4_best_split_accept 2 0 0 (-1) 1 (fun _ => .fin 5)
    (fun i => (i : ℚ)) cleanSplit).2.1 (by norm_num [cleanSplit])
  have h3 := (C4_best_split_accept 2 0 0 3 1 (fun _ => .pinf)
    (fun i => (i : ℚ)) cleanSplit).2.2 rfl
  refine ⟨⟨by norm_num [cleanSplit], ?_⟩, h2, h3⟩
  rw [h1]
  norm_num [cleanSplit]

/-- Claim C10: during the dense reduction a leaf whose host statistic
count is non-positive is skipped entirely - its best-split record is
returned unchanged, whatever the device result cells, scan values or
feature values contain. -/
theorem C10_empty_leaf_frame (lenght : ℕ) (active_fid : ℕ)
    (stats : ℕ → NodeStat) (res : ℕ → ℚ × ℕ) (sum : ℕ → FVal)
    (fvalue : ℕ → ℚ) (parentCount : ℕ → ℕ) (parentSum : ℕ → ℚ)
    (best : ℕ → Split) (i : ℕ) (hcount : (stats i).count ≤ 0) :
    getBestSplitForDence lenght active_fid stats res sum fvalue parentCount
      parentSum best i = best i := by
  unfold getBestSplitForDence
  by_cases h : i < lenght
  · rw [if_pos h, if_pos hcount]
  · rw [if_neg h]

/-- Claim C10 witness: a leaf with zero rows keeps its unset record even
though the device cell reports a huge gain. -/
theorem C10_empty_leaf_frame_witness :
    getBestSplitForDence 1 0 (fun _ => ⟨0, 0⟩) (fun _ => (100, 1))
      (fun _ => .fin 0) (fun _ => 0) (fun _ => 0) (fun _ => 0)
      (fun _ => cleanSplit) 0 = cleanSplit :=
  C10_empty_leaf_frame 1 0 (fun _ => ⟨0, 0⟩) (fun _ => (100, 1))
    (fun _ => .fin 0) (fun _ => 0) (fun _ => 0) (fun _ => 0)
    (fun _ => cleanSplit) 0 (by norm_num)

/-- The post-reduction sentinel pass of `FindBestSplits` (garden.cu lines
541-552): a leaf whose record still has `fid < 0` gets the degenerate
split; the other fields of the record are untouched. -/
def finalizeSplit (stat : NodeStat) (split : Split) : Split :=
  if split.fid < 0 then
    { fid := 0, gain := 0, split_value := .pinf, count := stat.count,
      sum_grad := stat.sum_grad, split_by_true := split.split_by_true }
  else split

/-- The row-routing predicate of `UpdateNodeIndex` (garden.cu lines
907-912): a row goes left iff its leaf's best split is on a dense feature
and the row's value of that feature is at most the threshold, or the
split is a sparse true-side split and the row is in the feature's
true-set. -/
def isLeftRoute (columns_dense : ℕ) (best : Split) (dataVal : ℚ)
    (inTrue : Bool) : Bool :=
  (decide (best.fid < (columns_dense : ℤ)) &&
      FVal.leb (.fin dataVal) best.split_value) ||
    (best.split_by_true && inTrue)

/-- The child statistics propagation of `UpdateNodeStat` (garden.cu lines
809-812): the left child of a leaf inherits the count and gradient
aggregate recorded in the leaf's best split. -/
def leftChildStat (best : Split) : NodeStat := ⟨best.count, best.sum_grad⟩

/-- Claim C6 counterexample: on a dataset with no dense columns
(`columns_dense = 0`, legal since features may be all sparse), the
degenerate sentinel split written for an unset leaf routes a row to the
RIGHT child: `fid = 0` is not a dense feature id there, and
`split_by_true` is false, so the routing predicate is false. -/
theorem C6_sparse_only_counterexample :
    (finalizeSplit ⟨5, 3⟩ cleanSplit).fid = 0 ∧
    (finalizeSplit ⟨5, 3⟩ cleanSplit).split_value = .pinf ∧
    isLeftRoute 0 (finalizeSplit ⟨5, 3⟩ cleanSplit) 1 false = false := by
  have h : finalizeSplit ⟨5, 3⟩ cleanSplit =
      { fid := 0, gain := 0, split_value := .pinf, count := 5, sum_grad := 3,
        split_by_true := false } := by
    simp [finalizeSplit, cleanSplit]
  rw [h]
  simp [isLeftRoute, FVal.leb]

/-- Claim C6 (amended): after the reduction, every leaf with no chosen
split (`fid = -1`, sparse flag unset as `Clean` leaves it) receives the
degenerate split `fid = 0, gain = 0, split_value = +inf` carrying the
leaf's own count and gradient aggregate; provided the dataset has at
least one dense column, the routing rule then sends every row of that
leaf to the left child, and the left child inherits the parent's
statistics. -/
theorem C6_degenerate_split (stat : NodeStat) (split : Split)
    (columns_dense : ℕ) (hfid : split.fid < 0) (hcd : 0 < columns_dense) :
    (finalizeSplit stat split).fid = 0 ∧
    (finalizeSplit stat split).gain = 0 ∧
    (finalizeSplit stat split).split_value = .pinf ∧
    (finalizeSplit stat split).count = stat.count ∧
    (finalizeSplit stat split).sum_grad = stat.sum_grad ∧
    (∀ (dataVal : ℚ) (inTrue : Bool),
      isLeftRoute columns_dense (finalizeSplit stat split) dataVal inTrue =
        true) ∧
    leftChildStat (finalizeSplit stat split) = stat := by
  have h : finalizeSplit stat split =
      { fid := 0, gain := 0, split_value := .pinf, count := stat.count,
        sum_grad := stat.sum_grad, split_by_true := split.split_by_true } :=
    if_pos hfid
  rw [h]
  refine ⟨rfl, rfl, rfl, rfl, rfl, ?_, ?_⟩
  · intro dataVal inTrue
    simp only [isLeftRoute, FVal.leb, Bool.or_eq_true, Bool.and_eq_true,
      decide_eq_true_eq]
    left
    exact ⟨by exact_mod_cast hcd, trivial⟩
  · cases stat
    rfl

/-- Claim C6 witness: a leaf with no chosen split on a dataset with one
dense column. -/
theorem C6_degenerate_split_witness :
    (finalizeSplit ⟨4, 2⟩ cleanSplit).fid = 0 ∧
    (finalizeSplit ⟨4, 2⟩ cleanSplit).gain = 0 ∧
    (finalizeSplit ⟨4, 2⟩ cleanSplit).split_value = .pinf ∧
    (finalizeSplit ⟨4, 2⟩ cleanSplit).count = (4 : ℤ) ∧
    (finalizeSplit ⟨4, 2⟩ cleanSplit).sum_grad = (2 : ℚ) ∧
    (∀ (dataVal : ℚ) (inTrue : Bool),
      isLeftRoute 1 (finalizeSplit ⟨4, 2⟩ cleanSplit) dataVal inTrue = true) ∧
    leftChildStat (finalizeSplit ⟨4, 2⟩ cleanSplit) = ⟨4, 2⟩ :=
  C6_degenerate_split ⟨4, 2⟩ cleanSplit 1 (by norm_num [cleanSplit])
    (by norm_num)

/-- The objective selector of `Garden::GrowTree` (garden.cu lines 938,
986, 1033). -/
inductive Objective where
  | LinearRegression : Objective
  | LogisticRegression : Objective
  | SoftMaxOneVsAll : Objective
deriving DecidableEq

/-- The four unsigned leaf-id widths the builder can instantiate. -/
inductive NodeWidth where
  | u8 : NodeWidth
  | u16 : NodeWidth
  | u32 : NodeWidth
  | u64 : NodeWidth
deriving DecidableEq

/-- Bit width of a leaf-id type. -/
def NodeWidth.bits : NodeWidth → ℕ
  | .u8 => 8
  | .u16 => 16
  | .u32 => 32
  | .u64 => 64

/-- The leaf-id (node) type selected by `Garden::GrowTree` (garden.cu
lines 938-1081), by objective, precision flag and tree depth.  Note the
single-precision LinearRegression branch for `depth + 1 <= 64`
instantiates `unsigned int`, not `unsigned long int` (line 977). -/
def builderNodeType (obj : Objective) (dp : Bool) (depth : ℕ) :
    Except String NodeWidth :=
  match obj with
  | .LinearRegression =>
    if depth + 1 ≤ 8 then .ok .u8
    else if depth + 1 ≤ 16 then .ok .u16
    else if depth + 1 ≤ 32 then .ok .u32
    else if depth + 1 ≤ 64 then (if dp then .ok .u64 else .ok .u32)
    else .error "unsupported depth"
  | .LogisticRegression =>
    if depth + 1 ≤ 8 then .ok .u8
    else if depth + 1 ≤ 16 then .ok .u16
    else if depth + 1 ≤ 32 then .ok .u32
    else if depth + 1 ≤ 64 then .ok .u64
    else .error "unsupported depth"
  | .SoftMaxOneVsAll =>
    if depth + 1 ≤ 8 then .ok .u8
    else if depth + 1 ≤ 16 then .ok .u16
    else if depth + 1 ≤ 32 then .ok .u32
    else if depth + 1 ≤ 64 then .ok .u64
    else .error "unsupported depth"

/-- Spec-side selection rule: the smallest unsigned type whose bit width
is at least `depth + 1`. -/
def smallestNodeWidth (depth : ℕ) : Except String NodeWidth :=
  if depth + 1 ≤ 8 then .ok .u8
  else if depth + 1 ≤ 16 then .ok .u16
  else if depth + 1 ≤ 32 then .ok .u32
  else if depth + 1 ≤ 64 then .ok .u64
  else .error "unsupported depth"

/-- Claim C8 (code bug): for LinearRegression in single precision at
depth 33 (so depth + 1 = 34 bits are needed) the builder instantiates the
32-bit leaf-id type instead of the required 64-bit one, while the
double-precision twin branch picks the 64-bit type; 32 bits is smaller
than depth + 1, contradicting the claimed selection rule. -/
theorem C8_node_width_bug :
    builderNodeType .LinearRegression false 33 = .ok .u32 ∧
    smallestNodeWidth 33 = .ok .u64 ∧
    NodeWidth.bits .u32 < 33 + 1 ∧
    builderNodeType .LinearRegression true 33 = .ok .u64 := by
  refine ⟨?_, ?_, ?_, ?_⟩ <;> norm_num [builderNodeType, smallestNodeWidth,
    NodeWidth.bits]

/-- Truncation toward zero, as the C cast `(int)` applied to a
floating-point value. -/
def truncQ (q : ℚ) : ℤ := if q < 0 then -(Int.floor (-q)) else Int.floor q

/-- The column-sampling checks of `InitGrowingTree` (garden.cu lines
355-369): the trainer throws when the truncated product
`colsample_bytree * columns` or `colsample_bytree * colsample_bylevel *
columns` is zero. -/
def initGrowingTreeCheck (colsample_bytree colsample_bylevel : ℚ)
    (columns : ℕ) : Except String Unit :=
  if truncQ (colsample_bytree * columns) = 0 then
    .error "colsample_bytree is too small"
  else if truncQ (colsample_bytree * colsample_bylevel * columns) = 0 then
    .error "colsample_bytree and colsample_bylevel are too small"
  else .ok ()

/-- Whether a trainer call failed. -/
def isError {α : Type} : Except String α → Bool
  | .error _ => true
  | .ok _ => false

theorem truncQ_nonneg (q : ℚ) (hq : 0 ≤ q) : truncQ q = Int.floor q := by
  unfold truncQ
  rw [if_neg (not_lt.2 hq)]

/-- Claim C9: with the (spec-ranged) nonnegative sampling rates,
initialization fails exactly when `floor(colsample_bytree * columns) = 0`
or `floor(colsample_bytree * colsample_bylevel * columns) = 0`, and
builder construction fails with "unsupported depth" exactly when
`depth + 1 > 64`, for every objective and both precision settings. -/
theorem C9_init_errors (bt bl : ℚ) (columns : ℕ) (hbt : 0 ≤ bt)
    (hbl : 0 ≤ bl) (obj : Objective) (dp : Bool) (depth : ℕ) :
    (isError (initGrowingTreeCheck bt bl columns) = true ↔
      Int.floor (bt * (columns : ℚ)) = 0 ∨
        Int.floor (bt * bl * (columns : ℚ)) = 0) ∧
    (builderNodeType obj dp depth = .error "unsupported depth" ↔
      64 < depth + 1) := by
  constructor
  · have h1 : truncQ (bt * (columns : ℚ)) = Int.floor (bt * (columns : ℚ)) :=
      truncQ_nonneg _ (mul_nonneg hbt (Nat.cast_nonneg _))
    have h2 : truncQ (bt * bl * (columns : ℚ)) =
        Int.floor (bt * bl * (columns : ℚ)) :=
      truncQ_nonneg _ (mul_nonneg (mul_nonneg hbt hbl) (Nat.cast_nonneg _))
    unfold initGrowingTreeCheck
    rw [h1, h2]
    by_cases hc1 : Int.floor (bt * (columns : ℚ)) = 0
    · rw [if_pos hc1]
      simp [isError, hc1]
    · rw [if_neg hc1]
      by_cases hc2 : Int.floor (bt * bl * (columns : ℚ)) = 0
      · rw [if_pos hc2]
        simp [isError, hc2]
      · rw [if_neg hc2]
        simp [isError, hc1, hc2]
  · cases obj <;> (unfold builderNodeType) <;>
      (try cases dp) <;> (split_ifs <;> simp_all <;> omega)

/-- Claim C9 witness: a failing and a succeeding configuration. -/
theorem C9_init_errors_witness :
    ((isError (initGrowingTreeCheck (1 / 3) (1 / 2) 1) = true ↔
      Int.floor ((1 / 3 : ℚ) * ((1 : ℕ) : ℚ)) = 0 ∨
        Int.floor ((1 / 3 : ℚ) * (1 / 2) * ((1 : ℕ) : ℚ)) = 0) ∧
      (builderNodeType .SoftMaxOneVsAll true 64 = .error "unsupported depth" ↔
        64 < 64 + 1)) ∧
    ((isError (initGrowingTreeCheck 1 1 4) = true ↔
      Int.floor ((1 : ℚ) * ((4 : ℕ) : ℚ)) = 0 ∨
        Int.floor ((1 : ℚ) * 1 * ((4 : ℕ) : ℚ)) = 0) ∧
      (builderNodeType .LinearRegression false 5 = .error "unsupported depth" ↔
        64 < 5 + 1)) :=
  ⟨C9_init_errors (1 / 3) (1 / 2) 1 (by norm_num) (by norm_num)
      .SoftMaxOneVsAll true 64,
    C9_init_errors 1 1 4 (by norm_num) (by norm_num)
      .LinearRegression false 5⟩

/-- Integer powers of two over ℚ, used by the binary32 model. -/
def pow2 : ℤ → ℚ := fun e => if 0 ≤ e then 2 ^ e.toNat else 1 / 2 ^ (-e).toNat

/-- Round a rational to the nearest integer, ties to even (the IEEE 754
default rounding). -/
def rne (x : ℚ) : ℤ :=
  if x - (Int.floor x : ℚ) < 1 / 2 then Int.floor x
  else if 1 / 2 < x - (Int.floor x : ℚ) then Int.floor x + 1
  else if Int.floor x % 2 = 0 then Int.floor x else Int.floor x + 1

/-- Fuel-driven binary normalisation: scale a positive rational into
`[1, 2)` while tracking the binary exponent.  Fuel 400 covers the whole
binary32 exponent range. -/
def normalize32 : ℕ → ℚ → ℤ → ℚ × ℤ
  | 0, a, e => (a, e)
  | n + 1, a, e =>
    if a < 1 then normalize32 n (2 * a) (e - 1)
    else if 2 ≤ a then normalize32 n (a / 2) (e + 1)
    else (a, e)

/-- IEEE binary32 round-to-nearest-even of a rational, for values in the
normal range (the only values the development evaluates it at; overflow,
underflow and NaN do not arise in the computations considered). -/
def round32 (q : ℚ) : ℚ :=
  if q = 0 then 0
  else
    (if q < 0 then -1 else 1) *
      ((rne ((normalize32 400 |q| 0).1 * 2 ^ 23) : ℤ) : ℚ) *
      pow2 ((normalize32 400 |q| 0).2 - 23)

/-- Single-precision float operations: exact rational result, then
binary32 rounding. -/
def fadd (a b : ℚ) : ℚ := round32 (a + b)
def fsub (a b : ℚ) : ℚ := round32 (a - b)
def fmul (a b : ℚ) : ℚ := round32 (a * b)
def fdiv (a b : ℚ) : ℚ := round32 (a / b)

theorem two_pow_ge_one_q (k : ℕ) : (1 : ℚ) ≤ 2 ^ k := by
  induction k with
  | zero => norm_num
  | succ k ih => rw [pow_succ]; nlinarith

theorem normalize32_done (n : ℕ) (a : ℚ) (e : ℤ) (h1 : 1 ≤ a) (h2 : a < 2) :
    normalize32 n a e = (a, e) := by
  cases n with
  | zero => rfl
  | succ n =>
    unfold normalize32
    rw [if_neg (by linarith), if_neg (by linarith)]

theorem normalize32_up (k : ℕ) : ∀ (n : ℕ) (m : ℚ) (e : ℤ), 1 ≤ m → m < 2 →
    normalize32 (n + k) (m * 2 ^ k) e = (m, e + k) := by
  induction k with
  | zero =>
    intro n m e h1 h2
    simpa using normalize32_done n m e h1 h2
  | succ k ih =>
    intro n m e h1 h2
    have hp : (1 : ℚ) ≤ 2 ^ k := two_pow_ge_one_q k
    have hge : (2 : ℚ) ≤ m * 2 ^ (k + 1) := by
      rw [pow_succ]; nlinarith
    rw [show n + (k + 1) = (n + k) + 1 from rfl]
    unfold normalize32
    rw [if_neg (by linarith), if_pos hge,
      show m * 2 ^ (k + 1) / 2 = m * 2 ^ k by rw [pow_succ]; ring,
      ih n m (e + 1) h1 h2]
    refine Prod.ext rfl ?_
    push_cast
    ring

theorem normalize32_down (k : ℕ) : ∀ (n : ℕ) (m : ℚ) (e : ℤ), 1 ≤ m → m < 2 →
    normalize32 (n + k) (m / 2 ^ k) e = (m, e - k) := by
  induction k with
  | zero =>
    intro n m e h1 h2
    simpa using normalize32_done n m e h1 h2
  | succ k ih =>
    intro n m e h1 h2
    have hp : (1 : ℚ) ≤ 2 ^ k := two_pow_ge_one_q k
    have hpos : (0 : ℚ) < 2 ^ (k + 1) := by positivity
    have hlt : m / 2 ^ (k + 1) < 1 := by
      rw [div_lt_one hpos, pow_succ]; nlinarith
    rw [show n + (k + 1) = (n + k) + 1 from rfl]
    unfold normalize32
    rw [if_pos hlt,
      show 2 * (m / 2 ^ (k + 1)) = m / 2 ^ k by rw [pow_succ]; field_simp; ring,
      ih n m (e - 1) h1 h2]
    refine Prod.ext rfl ?_
    push_cast
    ring

theorem round32_pos_up (m : ℚ) (k : ℕ) (hk : k ≤ 400) (h1 : 1 ≤ m)
    (h2 : m < 2) :
    round32 (m * 2 ^ k) = ((rne (m * 2 ^ 23) : ℤ) : ℚ) * pow2 ((k : ℤ) - 23) := by
  have hpos : (0 : ℚ) < m * 2 ^ k := by positivity
  unfold round32
  rw [if_neg hpos.ne', abs_of_pos hpos, if_neg (not_lt.2 hpos.le),
    show (400 : ℕ) = (400 - k) + k by omega,
    normalize32_up k (400 - k) m 0 h1 h2]
  norm_num

theorem round32_pos_down (m : ℚ) (k : ℕ) (hk : k ≤ 400) (h1 : 1 ≤ m)
    (h2 : m < 2) :
    round32 (m / 2 ^ k) =
      ((rne (m * 2 ^ 23) : ℤ) : ℚ) * pow2 (-(k : ℤ) - 23) := by
  have hpos : (0 : ℚ) < m / 2 ^ k := by positivity
  unfold round32
  rw [if_neg hpos.ne', abs_of_pos hpos, if_neg (not_lt.2 hpos.le),
    show (400 : ℕ) = (400 - k) + k by omega,
    normalize32_down k (400 - k) m 0 h1 h2]
  norm_num

theorem round32_neg (q : ℚ) (hq : 0 < q) : round32 (-q) = -round32 q := by
  unfold round32
  rw [if_neg (by linarith), if_neg hq.ne', if_pos (by linarith),
    if_neg (not_lt.2 hq.le), abs_neg]
  ring

theorem rne_lt (x : ℚ) (f : ℤ) (hf : Int.floor x = f)
    (hr : x - (f : ℚ) < 1 / 2) : rne x = f := by
  unfold rne
  rw [hf, if_pos hr]

theorem rne_tie_odd (x : ℚ) (f : ℤ) (hf : Int.floor x = f)
    (hr : x - (f : ℚ) = 1 / 2) (hodd : ¬ f % 2 = 0) : rne x = f + 1 := by
  unfold rne
  rw [hf, if_neg (by rw [hr]; norm_num), if_neg (by rw [hr]; norm_num),
    if_neg hodd]

theorem round32_zero : round32 0 = 0 := by simp [round32]

theorem round32_one : round32 1 = 1 := by
  have h := round32_pos_up 1 0 (by norm_num) (by norm_num) (by norm_num)
  norm_num at h
  rw [h, rne_lt (8388608 : ℚ) 8388608 (by rw [Int.floor_eq_iff]; norm_num)
    (by norm_num)]
  norm_num [pow2]
  rw [show Int.toNat 23 = 23 from rfl]
  norm_num

theorem round32_neg_one : round32 (-1) = -1 := by
  rw [show (-1 : ℚ) = -(1 : ℚ) by norm_num, round32_neg 1 (by norm_num),
    round32_one]

theorem round32_big_odd : round32 33554431 = 33554432 := by
  have h := round32_pos_up (33554431 / 16777216) 24 (by norm_num) (by norm_num)
    (by norm_num)
  norm_num at h
  rw [h, rne_tie_odd (33554431 / 2) 16777215
    (by rw [Int.floor_eq_iff]; norm_num) (by norm_num) (by decide)]
  norm_num [pow2, Int.toNat_ofNat]

theorem round32_pow25 : round32 33554432 = 33554432 := by
  have h := round32_pos_up 1 25 (by norm_num) (by norm_num) (by norm_num)
  norm_num at h
  rw [h, rne_lt (8388608 : ℚ) 8388608 (by rw [Int.floor_eq_iff]; norm_num)
    (by norm_num)]
  norm_num [pow2]
  rw [show Int.toNat 2 = 2 from rfl]
  norm_num

theorem round32_inv_pow25 : round32 (1 / 33554432) = 1 / 33554432 := by
  have h := round32_pos_down 1 25 (by norm_num) (by norm_num) (by norm_num)
  norm_num at h
  rw [h, rne_lt (8388608 : ℚ) 8388608 (by rw [Int.floor_eq_iff]; norm_num)
    (by norm_num)]
  norm_num [pow2]
  rw [show Int.toNat 48 = 48 from rfl]
  norm_num

theorem round32_one_ulp : round32 (33554433 / 33554432) = 1 := by
  have h := round32_pos_up (33554433 / 33554432) 0 (by norm_num) (by norm_num)
    (by norm_num)
  norm_num at h
  rw [h, rne_lt (33554433 / 4) 8388608
    (by rw [Int.floor_eq_iff]; norm_num) (by norm_num)]
  norm_num [pow2]
  rw [show Int.toNat 23 = 23 from rfl]
  norm_num

/-- The `float2` single-precision `gain_func` overload (garden.cu lines
125-141) under IEEE binary32 arithmetic: every arithmetic operation of the
source is rounded.  `right_sum` is written out as the two rounded
component subtractions the source computes. -/
def gain_func_fp (left_sum total_sum : Pair2) (left_count total_count : ℕ)
    (p : GainParams) : ℚ :=
  if p.min_leaf_size ≤ left_count ∧
      p.min_leaf_size ≤ usub 64 total_count left_count ∧
      p.hess ≤ |left_sum.y| ∧ p.hess ≤ |fsub total_sum.y left_sum.y| then
    fsub
      (fadd (fdiv (fmul left_sum.x left_sum.x) (fadd left_sum.y p.lambda))
        (fdiv (fmul (fsub total_sum.x left_sum.x) (fsub total_sum.x left_sum.x))
          (fadd (fsub total_sum.y left_sum.y) p.lambda)))
      (fdiv (fmul total_sum.x total_sum.x) (fadd total_sum.y p.lambda))
  else 0

/-- Componentwise single-precision subtraction of gradient pairs, as a
caller computes `G_t - G_L` in float. -/
def fpairSub (a b : Pair2) : Pair2 := ⟨fsub a.x b.x, fsub a.y b.y⟩

/-- Parameters for the floating-point asymmetry counterexample:
`min_leaf_size = 1`, `min_hess = 1/2`, `lambda = 0`. -/
def fpParams : GainParams := ⟨1, 1 / 2, 0, 0, 0⟩

/-- Claim C7 counterexample: under the implementation's single-precision
floating-point arithmetic the gain evaluator is NOT symmetric.  With
`G_L = (1, 1)`, `G_t = (0, 2^25)`, `L = 1`, `N_t = 2`, `min_hess = 1/2`:
the left-to-right call rounds `2^25 - 1` up to `2^25`, both hessian
conditions pass and the gain evaluates to 1; the mirrored call receives
`G_t - G_L` as computed in float, namely `(-1, 2^25)`, its right side has
hessian `fl(2^25 - 2^25) = 0 < min_hess`, and the gain is 0. -/
theorem C7_fp_asymmetry :
    gain_func_fp ⟨1, 1⟩ ⟨0, 33554432⟩ 1 2 fpParams = 1 ∧
    gain_func_fp (fpairSub ⟨0, 33554432⟩ ⟨1, 1⟩) ⟨0, 33554432⟩ 1 2
      fpParams = 0 ∧
    (1 : ℚ) ≠ 0 := by
  have f1 : fsub (0 : ℚ) 1 = -1 := by
    unfold fsub
    rw [show (0 : ℚ) - 1 = -1 by norm_num, round32_neg_one]
  have f2 : fsub (33554432 : ℚ) 1 = 33554432 := by
    unfold fsub
    rw [show (33554432 : ℚ) - 1 = 33554431 by norm_num, round32_big_odd]
  have f3 : fmul (1 : ℚ) 1 = 1 := by
    unfold fmul
    rw [show (1 : ℚ) * 1 = 1 by norm_num, round32_one]
  have f4 : fadd (1 : ℚ) 0 = 1 := by
    unfold fadd
    rw [show (1 : ℚ) + 0 = 1 by norm_num, round32_one]
  have f5 : fdiv (1 : ℚ) 1 = 1 := by
    unfold fdiv
    rw [show (1 : ℚ) / 1 = 1 by norm_num, round32_one]
  have f6 : fmul (-1 : ℚ) (-1) = 1 := by
    unfold fmul
    rw [show (-1 : ℚ) * -1 = 1 by norm_num, round32_one]
  have f7 : fadd (33554432 : ℚ) 0 = 33554432 := by
    unfold fadd
    rw [show (33554432 : ℚ) + 0 = 33554432 by norm_num, round32_pow25]
  have f8 : fdiv (1 : ℚ) 33554432 = 1 / 33554432 := by
    unfold fdiv
    rw [round32_inv_pow25]
  have f9 : fmul (0 : ℚ) 0 = 0 := by
    unfold fmul
    rw [show (0 : ℚ) * 0 = 0 by norm_num, round32_zero]
  have f10 : fdiv (0 : ℚ) 33554432 = 0 := by
    unfold fdiv
    rw [show (0 : ℚ) / 33554432 = 0 by norm_num, round32_zero]
  have f11 : fadd (1 : ℚ) (1 / 33554432) = 1 := by
    unfold fadd
    rw [show (1 : ℚ) + 1 / 33554432 = 33554433 / 33554432 by norm_num,
      round32_one_ulp]
  have f12 : fsub (1 : ℚ) 0 = 1 := by
    unfold fsub
    rw [show (1 : ℚ) - 0 = 1 by norm_num, round32_one]
  have f13 : fsub (0 : ℚ) (-1) = 1 := by
    unfold fsub
    rw [show (0 : ℚ) - -1 = 1 by norm_num, round32_one]
  have f14 : fsub (33554432 : ℚ) 33554432 = 0 := by
    unfold fsub
    rw [show (33554432 : ℚ) - 33554432 = 0 by norm_num, round32_zero]
  have hu : usub 64 2 1 = 1 := by norm_num [usub]
  refine ⟨?_, ?_, by norm_num⟩
  · have hcond : (1 : ℕ) ≤ 1 ∧ 1 ≤ usub 64 2 1 ∧
        (1 / 2 : ℚ) ≤ |(1 : ℚ)| ∧
        (1 / 2 : ℚ) ≤ |fsub (33554432 : ℚ) 1| := by
      rw [hu, f2]
      norm_num
    simp only [gain_func_fp, fpParams]
    rw [if_pos hcond, f1, f2, f3, f4, f5, f6, f7, f8, f9, f10, f11, f12]
  · have hpair : fpairSub ⟨0, 33554432⟩ ⟨1, 1⟩ = (⟨-1, 33554432⟩ : Pair2) := by
      simp only [fpairSub]
      rw [f1, f2]
    rw [hpair]
    have hcond2 : ¬ ((1 : ℕ) ≤ 1 ∧ 1 ≤ usub 64 2 1 ∧
        (1 / 2 : ℚ) ≤ |(33554432 : ℚ)| ∧
        (1 / 2 : ℚ) ≤ |fsub (33554432 : ℚ) 33554432|) := by
      rw [f14]
      intro hcon
      have := hcon.2.2.2
      norm_num at this
    simp only [gain_func_fp, fpParams]
    rw [if_neg hcond2]
